import Mathlib

/-!
# Verification of the secops_inventory audit orchestration pipeline

Shallow embedding, in Lean 4, of the core pipeline of the repository:
the retry/backoff wrapper (`src/utils.py`, `retry_with_backoff`), the
summarizer entry guard (`src/utils.py`, `generate_gemini_summary`), the
token-budget chunker (`src/utils.py`, `chunk_data_by_tokens`), the JSON
diff engine (`src/utils.py`, `generate_json_diff`), the paginated fetch
engine (`src/chronicle_api.py`, `make_api_request`), the schedule ticker
(`src/celery_worker.py`, `schedule_ticker`) and the audit runner
(`src/audit_logic.py`, `run_audit_logic`).

Machine-level details of the host language are modelled as follows:
Python strings are Lean `String` (or `List Char` where proofs walk the
characters), Python ints are `Nat`/`Int`, dictionaries are association
lists, raised exceptions are explicit variants of small inductive types,
and wall-clock instants are `Nat` seconds since an arbitrary epoch.
-/

namespace SecopsInventory

/-! ## String helpers

`prefixB pat s` decides whether `pat` is a leading segment of `s`, and
`infixB pat s` whether `pat` occurs contiguously anywhere in `s`.
`strContains s pat` models the Python expression `pat in s`. -/

def prefixB : List Char → List Char → Bool
  | [], _ => true
  | _ :: _, [] => false
  | a :: as, b :: bs => a == b && prefixB as bs

def infixB (pat : List Char) : List Char → Bool
  | [] => prefixB pat []
  | l@(_ :: rest) => prefixB pat l || infixB pat rest

def strContains (s pat : String) : Bool :=
  infixB pat.data s.data

/-! ## Retry policy — `retry_with_backoff` (src/utils.py lines 52-99)

The decorator wraps a fallible operation.  An invocation either returns a
Python value or raises an exception.  The values the wrapper inspects are
dictionaries: `PyVal.dictV e d` models a dict whose `"error"` key holds a
value with string form `e` (absent when `e = none`) and whose `"details"`
key holds string form `d`; every non-dict result is `PyVal.nonDict`. -/

inductive PyVal where
  | dictV (errorVal : Option String) (detailsVal : Option String)
  | nonDict (tag : String)
deriving DecidableEq, Repr

/-- Exceptions the wrapper distinguishes: the two Google API exceptions it
catches by type, `requests.exceptions.HTTPError` carrying its message, and
every other exception. -/
inductive PyExc where
  | resourceExhausted (msg : String)
  | serviceUnavailable (msg : String)
  | httpError (msg : String)
  | otherExc (msg : String)
deriving DecidableEq, Repr

/-- One invocation of the wrapped operation either returns a value or
raises. -/
inductive OpOutcome where
  | returns (v : PyVal)
  | raises (e : PyExc)
deriving DecidableEq, Repr

/-- `"429" in str(result.get("error", ""))` guarded by
`isinstance(result, dict) and "error" in result` (src/utils.py lines 66-69). -/
def payload429 : PyVal → Bool
  | .dictV (some e) _ => strContains e "429"
  | _ => false

/-- `result.get("details", "")` as a string (src/utils.py line 68). -/
def detailsStr : PyVal → String
  | .dictV _ (some d) => d
  | _ => ""

/-- Which raised exceptions the wrapper retries: `ResourceExhausted` and
`ServiceUnavailable` always (line 74); `HTTPError` only when its string
form contains `"429"` (lines 83-85); everything else never (lines 95-97). -/
def excIsRetryable : PyExc → Bool
  | .resourceExhausted _ => true
  | .serviceUnavailable _ => true
  | .httpError m => strContains m "429"
  | .otherExc _ => false

/-- Result of one pass through the `while True` body: return the value to
the caller, sleep-and-retry with the exception at hand, or re-raise it. -/
inductive StepRes where
  | success (v : PyVal)
  | retryable (e : PyExc)
  | terminal (e : PyExc)
deriving DecidableEq, Repr

/-- Classification performed by one iteration of the wrapper's loop
(src/utils.py lines 62-97): a returned dict whose `"error"` value contains
`"429"` is turned into `requests.exceptions.HTTPError(f"Status 429: {details}")`
(line 70), which the loop's own `except` clause then classifies as
retryable; any other returned value is handed back; a raised exception is
retryable or terminal per `excIsRetryable`. -/
def classifyStep : OpOutcome → StepRes
  | .returns v =>
      if payload429 v then .retryable (.httpError ("Status 429: " ++ detailsStr v))
      else .success v
  | .raises e => if excIsRetryable e then .retryable e else .terminal e

/-- How one run of the wrapped operation ends. -/
inductive RetryOutcome where
  | returned (v : PyVal)
  | raised (e : PyExc)
deriving DecidableEq, Repr

/-- Observable trace of one execution of the wrapper: how many times the
operation was invoked, how many backoff sleeps happened between
invocations, and the final outcome. -/
structure RetryRun where
  invocations : Nat
  sleeps : Nat
  outcome : RetryOutcome
deriving DecidableEq, Repr

/-- The wrapper's loop.  `op n` is the outcome of the `(n+1)`-th invocation
of the wrapped operation, `x` the current value of the loop counter, and
`budget = retries - x` the retries still allowed; `budget = 0` models the
`if x == retries: raise` branch (src/utils.py lines 75-76 and 87-88). -/
def retryAux (op : Nat → OpOutcome) : Nat → Nat → RetryRun
  | x, budget =>
    match classifyStep (op x), budget with
    | .success v, _ => ⟨1, 0, .returned v⟩
    | .terminal e, _ => ⟨1, 0, .raised e⟩
    | .retryable e, 0 => ⟨1, 0, .raised e⟩
    | .retryable _, b + 1 =>
        let r := retryAux op (x + 1) b
        ⟨r.invocations + 1, r.sleeps + 1, r.outcome⟩

/-- `retry_with_backoff(retries=retries)(op)()`: run the decorated
operation, starting from `x = 0` with the full retry budget. -/
def retry_with_backoff (retries : Nat) (op : Nat → OpOutcome) : RetryRun :=
  retryAux op 0 retries

/-- On an operation whose every invocation is classified retryable, the
wrapper performs exactly `budget + 1` invocations from loop counter `x`,
sleeps between consecutive invocations, and raises the exception produced
by the classification of the last invocation. -/
theorem retryAux_all_retryable (op : Nat → OpOutcome)
    (hall : ∀ n, ∃ e, classifyStep (op n) = .retryable e) :
    ∀ budget x, ∃ e, classifyStep (op (x + budget)) = .retryable e ∧
      retryAux op x budget = ⟨budget + 1, budget, .raised e⟩ := by
  intro budget
  induction budget with
  | zero =>
      intro x
      obtain ⟨e, he⟩ := hall x
      exact ⟨e, by simpa using he, by simp [retryAux, he]⟩
  | succ b ih =>
      intro x
      obtain ⟨e0, he0⟩ := hall x
      obtain ⟨e, he, hrun⟩ := ih (x + 1)
      refine ⟨e, by simpa [Nat.add_comm, Nat.add_assoc, Nat.add_left_comm] using he, ?_⟩
      simp [retryAux, he0, hrun]

/-- On an operation whose first invocation is classified a success or a
terminal failure, the wrapper stops after exactly one invocation. -/
theorem retryAux_first_stop (op : Nat → OpOutcome) (retries : Nat) :
    (∀ v, classifyStep (op 0) = .success v →
        retry_with_backoff retries op = ⟨1, 0, .returned v⟩) ∧
    (∀ e, classifyStep (op 0) = .terminal e →
        retry_with_backoff retries op = ⟨1, 0, .raised e⟩) := by
  constructor
  · intro v hv
    cases retries <;> simp [retry_with_backoff, retryAux, hv]
  · intro e he
    cases retries <;> simp [retry_with_backoff, retryAux, he]

/-- **C3.** With `maxRetries = 3`, an operation that raises a retryable
exception (HTTP 429 / resource-exhausted / service-unavailable) on every
invocation is invoked exactly 4 times, with a backoff sleep between
consecutive invocations (3 sleeps), and the exception raised by the final
invocation is propagated unchanged; an operation whose first invocation
raises a non-retryable exception is not retried: the wrapper propagates it
immediately after a single invocation, with no sleep. -/
theorem retry_bound_and_terminal_c3 (op : Nat → OpOutcome) :
    ((∀ n, ∃ e, op n = .raises e ∧ excIsRetryable e = true) →
      (retry_with_backoff 3 op).invocations = 4 ∧
      (retry_with_backoff 3 op).sleeps = 3 ∧
      ∀ e, op 3 = .raises e → (retry_with_backoff 3 op).outcome = .raised e) ∧
    (∀ e, op 0 = .raises e → excIsRetryable e = false →
      ∀ retries, retry_with_backoff retries op = ⟨1, 0, .raised e⟩) := by
  constructor
  · intro hall
    have hall' : ∀ n, ∃ e, classifyStep (op n) = .retryable e := by
      intro n
      obtain ⟨e, he, hr⟩ := hall n
      exact ⟨e, by simp [classifyStep, he, hr]⟩
    obtain ⟨e, he, hrun⟩ := retryAux_all_retryable op hall' 3 0
    refine ⟨by simp [retry_with_backoff, hrun], by simp [retry_with_backoff, hrun], ?_⟩
    intro e' he'
    have hre' : excIsRetryable e' = true := by
      obtain ⟨e3, h3, hr3⟩ := hall 3
      rw [he'] at h3
      injection h3 with h
      rw [h]; exact hr3
    have hc : classifyStep (op 3) = .retryable e' := by
      simp [classifyStep, he', hre']
    have he3 : classifyStep (op 3) = .retryable e := by simpa using he
    rw [hc] at he3
    injection he3 with h
    simp [retry_with_backoff, hrun, h]
  · intro e he hterm retries
    have hc : classifyStep (op 0) = .terminal e := by
      simp [classifyStep, he, hterm]
    exact (retryAux_first_stop op retries).2 e hc

/-- Closed instance of `retry_bound_and_terminal_c3`: an operation that
raises `ResourceExhausted` on every invocation, run with `maxRetries = 3`,
is invoked 4 times, sleeps 3 times, and the final exception propagates. -/
theorem retry_bound_and_terminal_c3_witness :
    (retry_with_backoff 3 (fun _ => OpOutcome.raises (PyExc.resourceExhausted "quota"))).invocations = 4 ∧
    (retry_with_backoff 3 (fun _ => OpOutcome.raises (PyExc.resourceExhausted "quota"))).sleeps = 3 ∧
    (retry_with_backoff 3 (fun _ => OpOutcome.raises (PyExc.resourceExhausted "quota"))).outcome
      = RetryOutcome.raised (PyExc.resourceExhausted "quota") := by
  have h := (retry_bound_and_terminal_c3
      (fun _ => OpOutcome.raises (PyExc.resourceExhausted "quota"))).1
      (fun _ => ⟨PyExc.resourceExhausted "quota", rfl, rfl⟩)
  exact ⟨h.1, h.2.1, h.2.2 _ rfl⟩

/-- Every execution of the wrapper invokes the operation at least once. -/
theorem retryAux_invocations_pos (op : Nat → OpOutcome) (b x : Nat) :
    1 ≤ (retryAux op x b).invocations := by
  cases hc : classifyStep (op x) <;> cases b <;> simp [retryAux, hc]

/-- **C5.** An operation that never raises but whose returned payload is a
dict with an embedded `"429"` marker in its `"error"` field is classified
retryable: the wrapper never returns that payload, performs the full
`retries + 1` invocations with sleeps between them, finally raises the
synthesized `HTTPError("Status 429: {details}")`, and its invocation/sleep
trace is identical to that on a transport-level always-429 operation. -/
theorem payload_429_retry_c5 (retries : Nat) (op : Nat → OpOutcome)
    (h : ∀ n, ∃ err det, op n = .returns (.dictV (some err) det) ∧
        strContains err "429" = true) :
    (retry_with_backoff retries op).invocations = retries + 1 ∧
    (retry_with_backoff retries op).sleeps = retries ∧
    (∀ v, (retry_with_backoff retries op).outcome ≠ .returned v) ∧
    (∀ v, op retries = .returns v →
      (retry_with_backoff retries op).outcome
        = .raised (.httpError ("Status 429: " ++ detailsStr v))) ∧
    (∀ opT, (∀ n, ∃ m, opT n = .raises (.httpError m) ∧ strContains m "429" = true) →
      (retry_with_backoff retries opT).invocations = (retry_with_backoff retries op).invocations ∧
      (retry_with_backoff retries opT).sleeps = (retry_with_backoff retries op).sleeps) := by
  have hall : ∀ n, ∃ e, classifyStep (op n) = .retryable e := by
    intro n
    obtain ⟨err, det, hop, h429⟩ := h n
    refine ⟨.httpError ("Status 429: " ++ detailsStr (.dictV (some err) det)), ?_⟩
    simp [classifyStep, hop, payload429, h429]
  obtain ⟨e, he, hrun⟩ := retryAux_all_retryable op hall retries 0
  refine ⟨by simp [retry_with_backoff, hrun], by simp [retry_with_backoff, hrun], ?_, ?_, ?_⟩
  · intro v
    simp [retry_with_backoff, hrun]
  · intro v hv
    obtain ⟨err, det, hop, h429⟩ := h retries
    rw [hv] at hop
    injection hop with hveq
    have hp : payload429 v = true := by rw [hveq]; simpa [payload429] using h429
    have hc : classifyStep (op retries) = .retryable (.httpError ("Status 429: " ++ detailsStr v)) := by
      simp [classifyStep, hv, hp]
    have he' : classifyStep (op retries) = .retryable e := by simpa using he
    rw [hc] at he'
    injection he' with h'
    simp [retry_with_backoff, hrun, h']
  · intro opT hT
    have hallT : ∀ n, ∃ e, classifyStep (opT n) = .retryable e := by
      intro n
      obtain ⟨m, hop, h429⟩ := hT n
      exact ⟨.httpError m, by simp [classifyStep, hop, excIsRetryable, h429]⟩
    obtain ⟨eT, heT, hrunT⟩ := retryAux_all_retryable opT hallT retries 0
    constructor <;> simp [retry_with_backoff, hrun, hrunT]

/-- Closed instance of `payload_429_retry_c5`: with `retries = 3` and a
payload-level 429 dict returned on every invocation, the wrapper makes 4
invocations and raises the synthesized HTTP 429 error. -/
theorem payload_429_retry_c5_witness :
    (retry_with_backoff 3
      (fun _ => OpOutcome.returns (PyVal.dictV (some "HTTP Error: 429") (some "rate limited")))).invocations = 4 ∧
    (retry_with_backoff 3
      (fun _ => OpOutcome.returns (PyVal.dictV (some "HTTP Error: 429") (some "rate limited")))).outcome
      = RetryOutcome.raised (PyExc.httpError "Status 429: rate limited") := by
  have h := payload_429_retry_c5 3
      (fun _ => OpOutcome.returns (PyVal.dictV (some "HTTP Error: 429") (some "rate limited")))
      (fun _ => ⟨"HTTP Error: 429", some "rate limited", rfl, by decide⟩)
  exact ⟨h.1, h.2.2.2.1 _ rfl⟩

/-- **C10.** When the operation returns without raising, the wrapper
retries only on a dict whose `"error"` value's string form contains
`"429"`: any other returned value — including a dict with a different
error message, or a non-dict — is handed back to the caller immediately
after a single invocation, with no sleep and no exception; on a
`"429"`-marked dict it does retry (at least a second invocation whenever
the budget allows one). -/
theorem payload_success_no_retry_c10 (op : Nat → OpOutcome) (v : PyVal)
    (h0 : op 0 = .returns v) :
    (payload429 v = false →
      ∀ retries, retry_with_backoff retries op = ⟨1, 0, .returned v⟩) ∧
    (payload429 v = true →
      ∀ r, 2 ≤ (retry_with_backoff (r + 1) op).invocations) := by
  constructor
  · intro hp retries
    have hc : classifyStep (op 0) = .success v := by
      simp [classifyStep, h0, hp]
    exact (retryAux_first_stop op retries).1 v hc
  · intro hp r
    have hc : classifyStep (op 0) = .retryable (.httpError ("Status 429: " ++ detailsStr v)) := by
      simp [classifyStep, h0, hp]
    have hpos := retryAux_invocations_pos op r 1
    have hstep : retry_with_backoff (r + 1) op
        = ⟨(retryAux op 1 r).invocations + 1, (retryAux op 1 r).sleeps + 1,
           (retryAux op 1 r).outcome⟩ := by
      simp [retry_with_backoff, retryAux, hc]
    rw [hstep]
    exact Nat.succ_le_succ hpos

/-- Closed instance of `payload_success_no_retry_c10`: a dict whose
`"error"` value reads `"quota exceeded"` (no `"429"` marker) is returned
as a success after exactly one invocation, without retry. -/
theorem payload_success_no_retry_c10_witness :
    retry_with_backoff 5 (fun _ => OpOutcome.returns (PyVal.dictV (some "quota exceeded") none))
      = ⟨1, 0, RetryOutcome.returned (PyVal.dictV (some "quota exceeded") none)⟩ := by
  exact (payload_success_no_retry_c10
      (fun _ => OpOutcome.returns (PyVal.dictV (some "quota exceeded") none))
      (PyVal.dictV (some "quota exceeded") none) rfl).1 (by decide) 5

/-! ## Summarizer entry guard — `generate_gemini_summary`
(src/utils.py lines 157-254)

The function's first statement short-circuits on empty input:
`if not data or (isinstance(data, (list, dict)) and not any(data))`.
`PyData` models the Python values that can arrive as `data`; a dict is
modelled by its key list, since the guard inspects only a dict's emptiness
and the truthiness of its keys (`any(dict)` iterates keys). -/

inductive PyData where
  | strD (s : String)
  | listD (xs : List PyData)
  | dictD (keys : List String)
  | noneD
  | intD (n : Int)
deriving Repr

/-- Python truthiness of the values that can arrive as `data`. -/
def pyTruthy : PyData → Bool
  | .strD s => !s.isEmpty
  | .listD xs => !xs.isEmpty
  | .dictD ks => !ks.isEmpty
  | .noneD => false
  | .intD n => n != 0

/-- `isinstance(data, (list, dict))`. -/
def isListOrDict : PyData → Bool
  | .listD _ => true
  | .dictD _ => true
  | _ => false

/-- `any(data)`: any truthy element of a list, any truthy key of a dict. -/
def anyTruthy : PyData → Bool
  | .listD xs => xs.any pyTruthy
  | .dictD ks => ks.any (fun k => !k.isEmpty)
  | _ => false

/-- The fixed message returned for empty input (src/utils.py line 165). -/
def noDataMessage : String :=
  "No data available for this audit. The API returned an empty result."

/-- `generate_gemini_summary`, observed through its return value and the
number of generative-AI calls it issues.  `rest` abstracts the body after
the guard (src/utils.py lines 167-254), returning its result together
with its AI call count; the guard (lines 163-165) returns the fixed
message and issues no call. -/
def generate_gemini_summary (rest : PyData → String × Nat) (data : PyData) :
    String × Nat :=
  if !pyTruthy data || (isListOrDict data && !anyTruthy data) then (noDataMessage, 0)
  else rest data

/-- **C9.** For every continuation (any prompt, audit label, model
configuration) and every falsy `data`, the summarizer returns the fixed
no-data message and issues zero generative-AI calls. -/
theorem empty_data_short_circuit_c9 (rest : PyData → String × Nat) (data : PyData)
    (h : pyTruthy data = false) :
    generate_gemini_summary rest data = (noDataMessage, 0) := by
  simp [generate_gemini_summary, h]

/-- Closed instance of `empty_data_short_circuit_c9` at `data = ""`. -/
theorem empty_data_short_circuit_c9_witness :
    generate_gemini_summary (fun _ => ("a summary", 7)) (PyData.strD "")
      = (noDataMessage, 0) :=
  empty_data_short_circuit_c9 (fun _ => ("a summary", 7)) (PyData.strD "") (by decide)

/-! ## Token chunker — `chunk_data_by_tokens` (src/utils.py lines 116-149)

Texts are `List Char`.  `splitLinesKeep` models Python's
`str.splitlines(keepends=True)` for texts whose line terminator is `'\n'`
(the terminator produced by the `json.dumps` / CSV payloads the chunker
receives); the token counter is an arbitrary function, covering both
`model.count_tokens` and the `len(line) // 4` fallback. -/

def splitLinesKeep : List Char → List (List Char)
  | [] => []
  | c :: rest =>
    if c = '\n' then [c] :: splitLinesKeep rest
    else
      match splitLinesKeep rest with
      | [] => [[c]]
      | l :: ls => (c :: l) :: ls

/-- Splitting into kept-terminator lines loses nothing. -/
theorem splitLinesKeep_flatten (l : List Char) : (splitLinesKeep l).flatten = l := by
  induction l with
  | nil => rfl
  | cons c rest ih =>
    by_cases hc : c = '\n'
    · simp [splitLinesKeep, hc, ih]
    · cases hsp : splitLinesKeep rest with
      | nil =>
          rw [hsp] at ih
          simp only [List.flatten_nil] at ih
          simp [splitLinesKeep, hc, hsp, ← ih]
      | cons l ls =>
          rw [hsp] at ih
          have ih' : l ++ ls.flatten = rest := by simpa using ih
          simp [splitLinesKeep, hc, hsp, ih']

/-- The chunker's `for line in lines` loop (src/utils.py lines 127-147).
`cur` is `current_chunk_lines`, `cnt` is `current_token_count`; the final
non-empty chunk is appended after the loop (lines 145-147). -/
def chunkGo (tok : List Char → Nat) (maxT : Nat) :
    List (List Char) → List (List Char) → Nat → List (List Char)
  | [], cur, _ => if cur.isEmpty then [] else [cur.flatten]
  | line :: rest, cur, cnt =>
    let t := tok line
    if maxT < cnt + t then
      (if cur.isEmpty then [] else [cur.flatten]) ++ chunkGo tok maxT rest [line] t
    else
      chunkGo tok maxT rest (cur ++ [line]) (cnt + t)

/-- `chunk_data_by_tokens(data_string, model, max_tokens_per_chunk)`. -/
def chunk_data_by_tokens (tok : List Char → Nat) (maxT : Nat) (s : List Char) :
    List (List Char) :=
  chunkGo tok maxT (splitLinesKeep s) [] 0

/-- Each run of the loop produces exactly the lines it was given, grouped
into consecutive blocks (one block per emitted chunk), with the pending
lines `cur` leading the first block. -/
theorem chunkGo_blocks (tok : List Char → Nat) (maxT : Nat) :
    ∀ (ls cur : List (List Char)) (cnt : Nat),
      ∃ blocks : List (List (List Char)),
        chunkGo tok maxT ls cur cnt = blocks.map List.flatten ∧
        blocks.flatten = cur ++ ls := by
  intro ls
  induction ls with
  | nil =>
    intro cur cnt
    cases cur with
    | nil => exact ⟨[], by simp [chunkGo], by simp⟩
    | cons x xs => exact ⟨[x :: xs], by simp [chunkGo], by simp⟩
  | cons line rest ih =>
    intro cur cnt
    by_cases h : maxT < cnt + tok line
    · obtain ⟨bl, h1, h2⟩ := ih [line] (tok line)
      cases cur with
      | nil => exact ⟨bl, by simp [chunkGo, h, h1], by simp [h2]⟩
      | cons x xs =>
          refine ⟨(x :: xs) :: bl, by simp [chunkGo, h, h1], ?_⟩
          simp [h2]
    · obtain ⟨bl, h1, h2⟩ := ih (cur ++ [line]) (cnt + tok line)
      refine ⟨bl, by simp [chunkGo, h, h1], ?_⟩
      simpa using h2

/-- **C7.** For every input text, every token counter and every positive
token budget, concatenating the returned chunks reproduces the input
exactly, and every chunk boundary falls at a line boundary: the chunks are
the concatenations of consecutive blocks of the input's kept-terminator
lines. -/
theorem chunk_reconstruction_c7 (tok : List Char → Nat) (maxT : Nat) (s : List Char)
    (hpos : 0 < maxT) :
    (chunk_data_by_tokens tok maxT s).flatten = s ∧
    ∃ blocks : List (List (List Char)),
      blocks.flatten = splitLinesKeep s ∧
      chunk_data_by_tokens tok maxT s = blocks.map List.flatten := by
  obtain ⟨bl, h1, h2⟩ := chunkGo_blocks tok maxT (splitLinesKeep s) [] 0
  have h2' : bl.flatten = splitLinesKeep s := by simpa using h2
  refine ⟨?_, bl, h2', by simpa [chunk_data_by_tokens] using h1⟩
  rw [chunk_data_by_tokens, h1, ← List.flatten_flatten, h2', splitLinesKeep_flatten]

/-- Closed instance of `chunk_reconstruction_c7`: the text `"ab\ncd\n"`,
chunked with the character-count tokenizer under a budget of 4 tokens,
reassembles to the original text and splits only at line breaks. -/
theorem chunk_reconstruction_c7_witness :
    (chunk_data_by_tokens List.length 4 "ab\ncd\n".data).flatten = "ab\ncd\n".data ∧
    ∃ blocks : List (List (List Char)),
      blocks.flatten = splitLinesKeep "ab\ncd\n".data ∧
      chunk_data_by_tokens List.length 4 "ab\ncd\n".data = blocks.map List.flatten :=
  chunk_reconstruction_c7 List.length 4 "ab\ncd\n".data (by decide)

/-! ## Schedule ticker — `schedule_ticker` (src/celery_worker.py lines 40-75)

Instants are seconds since an epoch that falls on a minute boundary.
For a given enabled schedule the ticker computes
`prev_run = croniter(cron, now).get_prev()` and decides due-ness from the
watermark `last_run_at`; for a due job it dispatches once and sets
`last_run_at = now`.  `prevOcc` abstracts croniter's most recent
occurrence for the job's cron expression; `prevOccurrenceMinutely` is that
value for the cron `* * * * *` (croniter's `get_prev` returns the previous
minute boundary, strictly earlier than `now` when `now` sits exactly on a
boundary). -/

def prevOccurrenceMinutely (now : Nat) : Nat :=
  if now % 60 = 0 then now - 60 else now - now % 60

/-- One schedule row: the `is_enabled` flag and the `last_run_at`
watermark (`none` = never run). -/
structure ScheduleState where
  isEnabled : Bool
  lastRunAt : Option Nat
deriving DecidableEq, Repr

/-- The `should_run` decision (src/celery_worker.py lines 55-65): with a
watermark, due iff the most recent cron occurrence is after it; without
one, due iff that occurrence is less than 300 seconds old. -/
def shouldRun (prevOcc now : Nat) (lastRunAt : Option Nat) : Bool :=
  match lastRunAt with
  | some w => decide (w < prevOcc)
  | none => decide (now - prevOcc < 300)

/-- One ticker evaluation of one schedule (src/celery_worker.py lines
50-73): returns how many dispatches were issued for the job on this tick
and the updated row.  A disabled job is never considered (the ticker's
query filters `is_enabled=True`); a due job is dispatched exactly once and
its watermark set to `now` before commit. -/
def schedule_tick (prevOcc now : Nat) (s : ScheduleState) : Nat × ScheduleState :=
  if s.isEnabled then
    if shouldRun prevOcc now s.lastRunAt then
      (1, { s with lastRunAt := some now })
    else (0, s)
  else (0, s)

/-- The ticker specialized to a job with cron `* * * * *`. -/
def schedule_ticker_minutely (now : Nat) (s : ScheduleState) : Nat × ScheduleState :=
  schedule_tick (prevOccurrenceMinutely now) now s

/-- **C1 (amended).** Under a single ticker, an enabled schedule job with
a watermark is due iff the most recent cron occurrence is strictly after
the watermark, a due job is dispatched exactly once on that tick with its
watermark then set to `now`; and for the cron `* * * * *` with watermark
`now - 30` the first tick dispatches exactly once *provided `now` lies
within the first 30 seconds after a minute boundary* (otherwise the
watermark already covers the most recent occurrence and nothing is
dispatched), and a second tick 1 second later — still before the next
minute boundary — does not dispatch again. -/
theorem schedule_exactly_once_c1 (now w : Nat) (h30 : w + 30 = now)
    (h1 : 0 < now % 60) (h2 : now % 60 < 30) :
    (∀ p n w', (schedule_tick p n ⟨true, some w'⟩).1 = 1 ↔ w' < p) ∧
    (∀ p n w', w' < p → schedule_tick p n ⟨true, some w'⟩ = (1, ⟨true, some n⟩)) ∧
    schedule_ticker_minutely now ⟨true, some w⟩ = (1, ⟨true, some now⟩) ∧
    schedule_ticker_minutely (now + 1) ⟨true, some now⟩ = (0, ⟨true, some now⟩) := by
  refine ⟨?_, ?_, ?_, ?_⟩
  · intro p n w'
    by_cases hw : w' < p <;> simp [schedule_tick, shouldRun, hw]
  · intro p n w' hw
    simp [schedule_tick, shouldRun, hw]
  · have hne : ¬ now % 60 = 0 := by omega
    have hlt : w < prevOccurrenceMinutely now := by
      rw [prevOccurrenceMinutely, if_neg hne]; omega
    simp [schedule_ticker_minutely, schedule_tick, shouldRun, hlt]
  · have hne : ¬ (now + 1) % 60 = 0 := by omega
    have hge : ¬ now < prevOccurrenceMinutely (now + 1) := by
      rw [prevOccurrenceMinutely, if_neg hne]; omega
    simp [schedule_ticker_minutely, schedule_tick, shouldRun, hge]

/-- The claim's scenario is false as universally stated: at a tick 45
seconds past a minute boundary (`now = 105`, watermark `now - 30 = 75`)
the most recent `* * * * *` occurrence (60) does not exceed the watermark,
so the first tick does not dispatch the job at all. -/
theorem schedule_exactly_once_c1_counterexample :
    105 - 30 = 75 ∧
    ¬ (schedule_ticker_minutely 105 ⟨true, some 75⟩).1 = 1 := by decide

/-- Closed instance of `schedule_exactly_once_c1` at `now = 70`
(10 seconds past the boundary), watermark `40`: the first tick dispatches
once and sets the watermark to `70`; the tick at `71` does not dispatch. -/
theorem schedule_exactly_once_c1_witness :
    schedule_ticker_minutely 70 ⟨true, some 40⟩ = (1, ⟨true, some 70⟩) ∧
    schedule_ticker_minutely 71 ⟨true, some 70⟩ = (0, ⟨true, some 70⟩) :=
  ⟨(schedule_exactly_once_c1 70 40 rfl (by decide) (by decide)).2.2.1,
   (schedule_exactly_once_c1 70 40 rfl (by decide) (by decide)).2.2.2⟩

/-! ## Paginated fetch — `make_api_request` (src/chronicle_api.py lines 8-143)

The pagination loop (lines 63-131) is modelled against a mock server: the
list `pages` holds, in order, the responses the server gives to the 1st,
2nd, … HTTP request; past the end of the list the server answers with an
empty body.  Configuration is reduced to what the loop inspects:
`rk` = a `pagination_results_key` is configured, `ptk` = a
`pagination_token_key` is configured, `mp` = the `max_pages` argument
(`none` = `None`; `some 0` is falsy in Python, so it disables the cap
exactly as `None` does).  Items aggregated from the pages are opaque
values of a type `α`. -/

/-- The value a page holds under the configured results key: a list of
items, or something that is not a list (shape mismatch). -/
inductive ResultsVal (α : Type) where
  | listV (items : List α)
  | nonList
deriving DecidableEq, Repr

/-- One HTTP response of the mock server: HTTP 204 / empty body; a
non-empty body that fails JSON decoding, carrying its raw text; or a JSON
body, reduced to the value under the results key (`none` = key absent)
and the value under the response-token key (`none` = absent or falsy). -/
inductive PageResp (α : Type) where
  | emptyBody
  | nonJson (text : String)
  | jsonBody (rv : Option (ResultsVal α)) (nextTok : Option String)
deriving DecidableEq, Repr

/-- The value `make_api_request` returns (absent transport errors):
`rawText t` is `{"result": t}` (line 98); `pageVerbatim` is a single
page's full body returned verbatim (lines 109 and 112); `aggregated` is
`{results_key: all_results}` (line 128); `singleFallback` / `envelope`
are `all_results[0]` / `{"results": all_results}` (line 131). -/
inductive FetchResult (α : Type) where
  | rawText (t : String)
  | pageVerbatim (rv : Option (ResultsVal α)) (nextTok : Option String)
  | aggregated (items : List α)
  | singleFallback (x : α)
  | envelope (items : List α)
deriving DecidableEq, Repr

/-- What the loop returns once it breaks (lines 126-131). -/
def finalize {α : Type} (rk : Bool) (acc : List α) : FetchResult α :=
  if rk then .aggregated acc
  else
    match acc with
    | [x] => .singleFallback x
    | _ => .envelope acc

/-- `if max_pages and page_count > max_pages` (line 65): `None` and `0`
are falsy and disable the cap. -/
def capExceeded (mp : Option Nat) (pageCount : Nat) : Bool :=
  match mp with
  | some m => m != 0 && decide (pageCount > m)
  | none => false

/-- The data-aggregation step for a JSON page (lines 102-112): either the
loop stops with a result returned to the caller, or it continues with an
updated accumulator. -/
inductive AggStep (α : Type) where
  | ret (r : FetchResult α)
  | cont (acc : List α)
deriving DecidableEq, Repr

def aggStep {α : Type} (rk ptk : Bool) (rv : Option (ResultsVal α))
    (tok : Option String) (acc : List α) : AggStep α :=
  match rk, rv with
  | true, some (.listV l) => .cont (acc ++ l)
  | true, some .nonList => .ret (.pageVerbatim rv tok)
  | true, none => if ptk then .cont acc else .ret (.pageVerbatim rv tok)
  | false, _ => if ptk then .cont acc else .ret (.pageVerbatim rv tok)

/-- The `while True` pagination loop (lines 63-131).  Arguments: remaining
mock responses, `all_results`, and `page_count` before the increment at
line 64.  Returns the number of HTTP requests issued together with the
function's result.  One iteration: increment the page counter and stop if
the cap is hit (lines 64-67); issue the request; stop on 204/empty body
(lines 89-91); on a JSON-decode failure return the raw text when nothing
has been aggregated, else stop (lines 93-99); otherwise aggregate (lines
102-112), then follow the response token: stop when no token key is
configured or the page carries no token (lines 115-123). -/
def fetchAux {α : Type} (rk ptk : Bool) (mp : Option Nat) :
    List (PageResp α) → List α → Nat → Nat × FetchResult α
  | [], acc, pcount =>
      if capExceeded mp (pcount + 1) then (0, finalize rk acc)
      else (1, finalize rk acc)
  | .emptyBody :: _, acc, pcount =>
      if capExceeded mp (pcount + 1) then (0, finalize rk acc)
      else (1, finalize rk acc)
  | .nonJson t :: _, acc, pcount =>
      if capExceeded mp (pcount + 1) then (0, finalize rk acc)
      else if acc.isEmpty then (1, .rawText t) else (1, finalize rk acc)
  | .jsonBody rv tok :: rest, acc, pcount =>
      if capExceeded mp (pcount + 1) then (0, finalize rk acc)
      else
        match aggStep rk ptk rv tok acc with
        | .ret r => (1, r)
        | .cont acc' =>
            if ptk then
              match tok with
              | none => (1, finalize rk acc')
              | some _ =>
                  let r := fetchAux rk ptk mp rest acc' (pcount + 1)
                  (r.1 + 1, r.2)
            else (1, finalize rk acc')

/-- `make_api_request` against a mock page sequence: the loop starting
from `all_results = []`, `page_count = 0`. -/
def make_api_request {α : Type} (rk ptk : Bool) (mp : Option Nat)
    (pages : List (PageResp α)) : Nat × FetchResult α :=
  fetchAux rk ptk mp pages [] 0

/-- A page's contribution to the aggregated results. -/
def pageItems {α : Type} : PageResp α → List α
  | .jsonBody (some (.listV l)) _ => l
  | _ => []

/-- When the cap test at the top of an iteration fails and the cap is
active, the incremented page counter is within the cap. -/
theorem capExceeded_false_le {m pc : Nat} (hm : 1 ≤ m)
    (h : capExceeded (some m) pc = false) : pc ≤ m := by
  by_contra hgt
  have htrue : capExceeded (some m) pc = true := by
    simp only [capExceeded, Bool.and_eq_true, bne_iff_ne, ne_eq, decide_eq_true_eq]
    omega
  rw [htrue] at h
  exact Bool.true_eq_false.mp h

/-- With an active cap `m ≥ 1`, the loop issues at most `m - pcount`
further requests when entered with `page_count = pcount`. -/
theorem fetchAux_requests_le {α : Type} (rk ptk : Bool) (m : Nat) (hm : 1 ≤ m) :
    ∀ (pages : List (PageResp α)) (acc : List α) (pcount : Nat),
      (fetchAux rk ptk (some m) pages acc pcount).1 ≤ m - pcount := by
  intro pages
  induction pages with
  | nil =>
      intro acc pcount
      by_cases hcap : capExceeded (some m) (pcount + 1) = true
      · simp [fetchAux, hcap]
      · rw [Bool.not_eq_true] at hcap
        have hle := capExceeded_false_le hm hcap
        simp [fetchAux, hcap]
        omega
  | cons p rest ih =>
      intro acc pcount
      by_cases hcap : capExceeded (some m) (pcount + 1) = true
      · cases p <;> simp [fetchAux, hcap]
      · rw [Bool.not_eq_true] at hcap
        have hle := capExceeded_false_le hm hcap
        cases p with
        | emptyBody => simp [fetchAux, hcap]; omega
        | nonJson t =>
            by_cases ha : acc.isEmpty <;> simp [fetchAux, hcap, ha] <;> omega
        | jsonBody rv tok =>
            rw [fetchAux, if_neg (by simp [hcap])]
            cases hstep : aggStep rk ptk rv tok acc with
            | ret r => simp; omega
            | cont acc' =>
                cases hptk : ptk with
                | false => simp; omega
                | true =>
                    cases tok with
                    | none => simp; omega
                    | some t' =>
                        have hrec := ih acc' (pcount + 1)
                        rw [hptk] at hrec
                        simp
                        omega

/-- With a results key configured, a run of the loop over pages that all
carry a list under the results key returns the accumulator extended by the
items of some consumed prefix of the pages, wrapped under the results key. -/
theorem fetchAux_all_lists {α : Type} (ptk : Bool) (mp : Option Nat) :
    ∀ (pages : List (PageResp α)),
      (∀ p ∈ pages, ∃ l t, p = PageResp.jsonBody (some (ResultsVal.listV l)) t) →
      ∀ (acc : List α) (pcount : Nat),
      ∃ k, (fetchAux true ptk mp pages acc pcount).2
          = FetchResult.aggregated (acc ++ ((pages.take k).map pageItems).flatten) := by
  intro pages
  induction pages with
  | nil =>
      intro _ acc pcount
      refine ⟨0, ?_⟩
      by_cases hcap : capExceeded mp (pcount + 1) = true <;>
        simp [fetchAux, hcap, finalize]
  | cons p rest ih =>
      intro h acc pcount
      obtain ⟨l, t, rfl⟩ := h p (by simp)
      by_cases hcap : capExceeded mp (pcount + 1) = true
      · exact ⟨0, by simp [fetchAux, hcap, finalize]⟩
      · rw [Bool.not_eq_true] at hcap
        cases hptk : ptk with
        | false =>
            refine ⟨1, ?_⟩
            rw [fetchAux, if_neg (by simp [hcap])]
            simp [aggStep, finalize, pageItems]
        | true =>
            cases t with
            | none =>
                refine ⟨1, ?_⟩
                rw [fetchAux, if_neg (by simp [hcap])]
                simp [aggStep, finalize, pageItems]
            | some tv =>
                obtain ⟨k, hk⟩ := ih (fun q hq => h q (by simp [hq])) (acc ++ l) (pcount + 1)
                rw [hptk] at hk
                refine ⟨k + 1, ?_⟩
                rw [fetchAux, if_neg (by simp [hcap])]
                simp only [aggStep]
                simp [hk, pageItems, List.append_assoc]

/-- **C2.** Against any finite sequence of mock pages and any configured
`max_pages = m ≥ 1`, the paginated fetch terminates, issues at most `m`
HTTP requests (returning the accumulated results when the cap is hit),
and — when a results key is configured and every page carries a list under
it — returns the aggregation of the items of the consumed prefix of the
pages, whose item count is the sum of the per-page item counts. -/
theorem pagination_termination_c2 {α : Type} (pages : List (PageResp α))
    (ptk : Bool) (m : Nat) (hm : 1 ≤ m) :
    (∀ rk : Bool, (make_api_request rk ptk (some m) pages).1 ≤ m) ∧
    ((∀ p ∈ pages, ∃ l t, p = PageResp.jsonBody (some (ResultsVal.listV l)) t) →
      ∃ k, (make_api_request true ptk (some m) pages).2
            = FetchResult.aggregated (((pages.take k).map pageItems).flatten) ∧
          (((pages.take k).map pageItems).flatten).length
            = ((pages.take k).map (fun p => (pageItems p).length)).sum) := by
  constructor
  · intro rk
    have h := fetchAux_requests_le rk ptk m hm pages [] 0
    simpa [make_api_request] using h
  · intro h
    obtain ⟨k, hk⟩ := fetchAux_all_lists ptk (some m) pages h [] 0
    refine ⟨k, by simpa [make_api_request] using hk, ?_⟩
    rw [List.length_flatten, List.map_map]
    rfl

/-- Closed instance of `pagination_termination_c2`: three one-token-linked
pages of 2, 1 and 1 items under a cap of 2 pages — at most 2 requests are
issued and the result aggregates the items of a consumed prefix, with
matching counts. -/
theorem pagination_termination_c2_witness :
    (make_api_request true true (some 2)
        [PageResp.jsonBody (some (ResultsVal.listV [1, 2])) (some "t1"),
         PageResp.jsonBody (some (ResultsVal.listV [3])) (some "t2"),
         PageResp.jsonBody (some (ResultsVal.listV [4])) none]).1 ≤ 2 ∧
    ∃ k, (make_api_request true true (some 2)
        [PageResp.jsonBody (some (ResultsVal.listV [1, 2])) (some "t1"),
         PageResp.jsonBody (some (ResultsVal.listV [3])) (some "t2"),
         PageResp.jsonBody (some (ResultsVal.listV [4])) none]).2
        = FetchResult.aggregated
            ((([PageResp.jsonBody (some (ResultsVal.listV [1, 2])) (some "t1"),
                PageResp.jsonBody (some (ResultsVal.listV [3])) (some "t2"),
                PageResp.jsonBody (some (ResultsVal.listV [4])) none].take k).map pageItems).flatten) ∧
        ((([PageResp.jsonBody (some (ResultsVal.listV [1, 2])) (some "t1"),
            PageResp.jsonBody (some (ResultsVal.listV [3])) (some "t2"),
            PageResp.jsonBody (some (ResultsVal.listV [4])) none].take k).map pageItems).flatten).length
          = (([PageResp.jsonBody (some (ResultsVal.listV [1, 2])) (some "t1"),
              PageResp.jsonBody (some (ResultsVal.listV [3])) (some "t2"),
              PageResp.jsonBody (some (ResultsVal.listV [4])) none].take k).map
              (fun p => (pageItems p).length)).sum := by
  have hall : ∀ p ∈ [PageResp.jsonBody (some (ResultsVal.listV [1, 2])) (some "t1"),
      PageResp.jsonBody (some (ResultsVal.listV [3])) (some "t2"),
      PageResp.jsonBody (some (ResultsVal.listV [4])) none],
      ∃ l t, p = PageResp.jsonBody (some (ResultsVal.listV l)) t := by
    intro p hp
    simp only [List.mem_cons, List.not_mem_nil, or_false] at hp
    rcases hp with rfl | rfl | rfl
    exacts [⟨[1, 2], some "t1", rfl⟩, ⟨[3], some "t2", rfl⟩, ⟨[4], none, rfl⟩]
  exact ⟨(pagination_termination_c2 _ true 2 (by decide)).1 true,
         (pagination_termination_c2 _ true 2 (by decide)).2 hall⟩

/-- A loop with results key and token key configured and no cap, entered
at a prefix of list-carrying, token-carrying pages followed by a
JSON-decode failure: the prefix is consumed and the non-JSON page either
yields the raw text (nothing aggregated so far) or ends pagination with
the aggregate. -/
theorem fetchAux_nonjson_after_prefix {α : Type} :
    ∀ (P : List (PageResp α)),
      (∀ p ∈ P, ∃ l t, p = PageResp.jsonBody (some (ResultsVal.listV l)) (some t)) →
      ∀ (rest : List (PageResp α)) (t : String) (acc : List α) (pcount : Nat),
      fetchAux true true none (P ++ PageResp.nonJson t :: rest) acc pcount
        = (P.length + 1,
           if (acc ++ (P.map pageItems).flatten).isEmpty then FetchResult.rawText t
           else FetchResult.aggregated (acc ++ (P.map pageItems).flatten)) := by
  intro P
  induction P with
  | nil =>
      intro _ rest t acc pcount
      rw [List.nil_append, fetchAux]
      by_cases ha : acc.isEmpty <;> simp [capExceeded, finalize, ha]
  | cons p P' ih =>
      intro hP rest t acc pcount
      obtain ⟨l, tv, rfl⟩ := hP p (by simp)
      rw [List.cons_append, fetchAux]
      rw [if_neg (by simp [capExceeded])]
      simp only [aggStep]
      rw [ih (fun q hq => hP q (by simp [hq])) rest t (acc ++ l) (pcount + 1)]
      simp only [pageItems, List.map_cons, List.flatten_cons, List.length_cons]
      rw [List.append_assoc, if_pos trivial]

/-- **C8.** With results and token keys configured, after a prefix of
well-formed pages a page whose non-empty body fails JSON decoding is
handled as follows: if nothing has been aggregated so far the fetch
returns the raw response text (as `{"result": text}`) instead of failing;
otherwise the non-JSON page only stops pagination and the aggregated
results are returned. -/
theorem nonjson_page_c8 {α : Type} (P rest : List (PageResp α)) (t : String)
    (hP : ∀ p ∈ P, ∃ l tok, p = PageResp.jsonBody (some (ResultsVal.listV l)) (some tok)) :
    make_api_request true true none (P ++ PageResp.nonJson t :: rest)
      = (P.length + 1,
         if ((P.map pageItems).flatten).isEmpty then FetchResult.rawText t
         else FetchResult.aggregated ((P.map pageItems).flatten)) := by
  have h := fetchAux_nonjson_after_prefix P hP rest t [] 0
  simpa [make_api_request] using h

/-- Closed instance of `nonjson_page_c8`: a non-JSON page after one
aggregated page stops pagination and the aggregate is returned; a
non-JSON first page yields the raw text. -/
theorem nonjson_page_c8_witness :
    make_api_request true true none
        [PageResp.jsonBody (some (ResultsVal.listV [5])) (some "x"),
         PageResp.nonJson "plain"]
      = (2, FetchResult.aggregated [5]) ∧
    make_api_request true true none [PageResp.nonJson (α := Nat) "plain"]
      = (1, FetchResult.rawText "plain") := by
  constructor
  · have h := nonjson_page_c8 [PageResp.jsonBody (some (ResultsVal.listV [5])) (some "x")]
        [] "plain" (by
          intro p hp
          simp only [List.mem_cons, List.not_mem_nil, or_false] at hp
          subst hp
          exact ⟨[5], "x", rfl⟩)
    simpa [pageItems] using h
  · have h := nonjson_page_c8 ([] : List (PageResp Nat)) [] "plain"
        (by intro p hp; simp at hp)
    simpa using h

/-! ## Audit runner — `run_audit_logic` (src/audit_logic.py lines 57-147)

`audit_name` and `audit_details_override` are read from the request before
the `try` (lines 62-63) and are always bound; the local `audit_details` is
assigned only inside the `try` (line 68 from the override, line 73 from
the lookup).  The `try` body raises `ValueError` when the request carries
neither field (line 75, with `audit_details` still unbound), when the
lookup finds no audit (line 78), or when the fetch phase returns an error
dict (lines 112-114); every other exception escapes the body — notably
the `requests.exceptions.HTTPError` that `retry_with_backoff` re-raises
out of `make_api_request` once its retries are exhausted
(src/chronicle_api.py line 8, src/utils.py lines 87-88).  The
`except (ValueError, KeyError)` clause (line 133) first evaluates
`audit_details` as the condition of the conditional expression on line
134: when that local was never assigned, this raises `UnboundLocalError`
and nothing is inserted; otherwise it inserts a `Failed` record whose
audit name is `audit_details.get("name") or audit_name` for a dict and
the literal `"Unknown"` for `None`, then re-raises.  Exceptions of other
types propagate without touching the audit table. -/

/-- Exception classes relevant to `run_audit_logic`: the two its `except`
clause catches, the `UnboundLocalError` the handler itself can raise, and
everything else. -/
inductive RunExc where
  | valueError (msg : String)
  | keyError (msg : String)
  | unboundLocal (msg : String)
  | otherExc (msg : String)
deriving DecidableEq, Repr

/-- The dict returned by `make_api_request` when it does not raise:
`errorVal`/`detailsVal` are the string forms of its `"error"`/`"details"`
entries (absent when `none`); `dump` stands for
`json.dumps(final_response, indent=2)`. -/
structure FinalResp where
  errorVal : Option String
  detailsVal : Option String
  dump : String
deriving DecidableEq, Repr

/-- The fields of an audit-definition dict that `run_audit_logic` reads
when building records: `audit_details.get("name")` and
`audit_details.get("category")` (`none` = key absent or `None`). -/
structure AuditDetails where
  name : Option String
  category : Option String
deriving DecidableEq, Repr

/-- A row of the `Audit` table as inserted by `run_audit_logic`; the
`audit_name` column is nullable because
`audit_details.get("name") or audit_name` can evaluate to `None`. -/
structure AuditRecord where
  tenantProjectId : String
  auditName : Option String
  auditCategory : String
  runTimestamp : String
  status : String
  results : String
deriving DecidableEq, Repr

/-- Python `a or b` over string-or-`None` values: `a` unless it is falsy
(`None` or the empty string). -/
def pyOr (a b : Option String) : Option String :=
  match a with
  | some s => if s.isEmpty then b else some s
  | none => b

/-- The message of the `UnboundLocalError` raised by the handler itself
when `audit_details` was never assigned. -/
def unboundMsg : String :=
  "local variable 'audit_details' referenced before assignment"

/-- The `except (ValueError, KeyError)` clause once `audit_details` is
bound (src/audit_logic.py lines 133-145): on those two classes, insert a
`Failed` record carrying the error message and re-raise; any other
exception falls through with no insert. -/
def exceptClause (projectId ts : String) (nameVal : Option String)
    (cat : String) (e : RunExc) : List AuditRecord × Except RunExc String :=
  match e with
  | .valueError m => ([⟨projectId, nameVal, cat, ts, "Failed", m⟩], .error (.valueError m))
  | .keyError m => ([⟨projectId, nameVal, cat, ts, "Failed", m⟩], .error (.keyError m))
  | e => ([], .error e)

/-- The part of the `try` body that runs once `audit_details` is bound to
a dict `d` (src/audit_logic.py lines 80-131), with its exceptions routed
through the `except` clause: `fetch` is the outcome of the fetch phase
(the audit-type query, `run_custom_iam_audit` or `make_api_request`),
which either raises or returns the response dict; an `"error"` entry in
the response raises `ValueError` with the `"details"` entry, defaulting
to the `"error"` entry (lines 112-114); on success a `Success` record
with the serialized response is inserted (lines 116-126).  The record's
audit name is `audit_details.get("name") or audit_name` (lines 116 and
134) and its category `audit_details.get("category", "Unknown")` (lines
119 and 137). -/
def runBound (projectId ts : String) (auditNameReq : Option String)
    (d : AuditDetails) (fetch : Except RunExc FinalResp) :
    List AuditRecord × Except RunExc String :=
  let nameVal := pyOr d.name auditNameReq
  let cat := d.category.getD "Unknown"
  match fetch with
  | .error e => exceptClause projectId ts nameVal cat e
  | .ok resp =>
      match resp.errorVal with
      | some err =>
          exceptClause projectId ts nameVal cat
            (.valueError (resp.detailsVal.getD err))
      | none =>
          ([⟨projectId, nameVal, cat, ts, "Success", resp.dump⟩],
           .ok ("Audit '" ++ nameVal.getD "None" ++ "' completed successfully."))

/-- `run_audit_logic`, observed through the records it inserts and its
outcome (src/audit_logic.py lines 57-147).  `auditNameReq` and `override`
are `request.get("audit_name")` and `request.get("audit_details")`;
`lookup` is `list_available_audits_from_db().get(audit_name)` (`none`
covers a missing or falsy entry).  With neither request field, line 75
raises `ValueError` while `audit_details` is still unbound, so the
handler itself raises `UnboundLocalError` at line 134 and no record is
inserted; a failed lookup raises `ValueError` with `audit_details = None`,
so the handler inserts a `Failed` record named `"Unknown"` with category
`"Unknown"`. -/
def run_audit_logic (projectId ts : String) (auditNameReq : Option String)
    (override lookup : Option AuditDetails)
    (fetch : Except RunExc FinalResp) : List AuditRecord × Except RunExc String :=
  match override with
  | some d => runBound projectId ts auditNameReq d fetch
  | none =>
      match auditNameReq with
      | none => ([], .error (.unboundLocal unboundMsg))
      | some nm =>
          match lookup with
          | none =>
              exceptClause projectId ts (some "Unknown") "Unknown"
                (.valueError ("Audit '" ++ nm ++ "' not found"))
          | some d => runBound projectId ts (some nm) d fetch

/-- The claim is false on the code at two concrete inputs: (i) when the
fetch phase raises a non-`ValueError`/`KeyError` exception — here the
`HTTPError` that the retry wrapper re-raises out of `make_api_request`
after exhausting its retries — the failure propagates while no record is
inserted; (ii) a request carrying neither `audit_name` nor
`audit_details` raises `ValueError` before `audit_details` is assigned,
the handler itself then fails with `UnboundLocalError`, and again no
record is inserted. -/
theorem failed_record_c4_counterexample :
    run_audit_logic "proj-1" "2026-01-01T00:00:00" (some "soar-users")
        (some ⟨some "soar-users", some "SOAR"⟩) none
        (.error (.otherExc "HTTPError: Status 429: rate limited"))
      = ([], .error (.otherExc "HTTPError: Status 429: rate limited")) ∧
    run_audit_logic "proj-1" "2026-01-01T00:00:00" none none none
        (.ok ⟨none, none, "\x7b\x7d"⟩)
      = ([], .error (.unboundLocal unboundMsg)) :=
  ⟨rfl, rfl⟩

/-- **C4 (amended).** Once the `audit_details` local is bound, audit-run
failures raised as `ValueError` or `KeyError` insert a `Failed` record
carrying the error message before the exception propagates — the record's
audit name is `audit_details.get("name") or audit_name` when a definition
dict was bound, and the literal `"Unknown"` when the lookup found no
audit; failures of any other exception type (e.g. a retry-exhausted
`HTTPError` escaping `make_api_request`) propagate with no record
inserted; and a request carrying neither `audit_name` nor `audit_details`
raises `ValueError` while `audit_details` is still unbound, whereupon the
`except` handler itself fails with `UnboundLocalError` and inserts
nothing.  The two routes that bind the same definition dict (override,
or lookup by name) behave identically. -/
theorem failed_record_c4 (projectId ts nm err m dump : String)
    (auditNameReq : Option String) (d : AuditDetails)
    (lookup : Option AuditDetails) (det : Option String)
    (fetch : Except RunExc FinalResp) :
    run_audit_logic projectId ts none none lookup fetch
      = ([], .error (.unboundLocal unboundMsg)) ∧
    run_audit_logic projectId ts (some nm) none none fetch
      = ([⟨projectId, some "Unknown", "Unknown", ts, "Failed",
           "Audit '" ++ nm ++ "' not found"⟩],
         .error (.valueError ("Audit '" ++ nm ++ "' not found"))) ∧
    run_audit_logic projectId ts auditNameReq (some d) lookup (.error (.valueError m))
      = ([⟨projectId, pyOr d.name auditNameReq, d.category.getD "Unknown", ts, "Failed", m⟩],
         .error (.valueError m)) ∧
    run_audit_logic projectId ts auditNameReq (some d) lookup (.error (.keyError m))
      = ([⟨projectId, pyOr d.name auditNameReq, d.category.getD "Unknown", ts, "Failed", m⟩],
         .error (.keyError m)) ∧
    run_audit_logic projectId ts auditNameReq (some d) lookup (.ok ⟨some err, det, dump⟩)
      = ([⟨projectId, pyOr d.name auditNameReq, d.category.getD "Unknown", ts, "Failed",
           det.getD err⟩],
         .error (.valueError (det.getD err))) ∧
    run_audit_logic projectId ts auditNameReq (some d) lookup (.error (.otherExc m))
      = ([], .error (.otherExc m)) ∧
    run_audit_logic projectId ts (some nm) none (some d) fetch
      = run_audit_logic projectId ts (some nm) (some d) lookup fetch :=
  ⟨rfl, rfl, rfl, rfl, rfl, rfl, rfl⟩

/-! ## JSON diff engine — `generate_json_diff` (src/utils.py lines 352-387)

`JVal` models the parsed JSON documents (`json.loads` output): numbers are
restricted to integers and object entries keep Python's insertion order.
Because `json.loads` resolves duplicate keys (later wins), parsed objects
always have pairwise-distinct keys; `wfJson` captures that invariant.
`dumpsAux` models `json.dumps(·, indent=2, sort_keys=True)` for this value
space (basic character escapes; non-ASCII escaping is irrelevant here
because the serialization is only compared with itself). -/

inductive JVal where
  | null
  | boolV (b : Bool)
  | numV (n : Int)
  | strV (s : String)
  | arr (xs : List JVal)
  | obj (entries : List (String × JVal))
deriving Repr

/-- `dict.get`-style lookup in an object's entry list. -/
def lookupKey (k : String) : List (String × JVal) → Option JVal
  | [] => none
  | (k', v) :: es => if k' = k then some v else lookupKey k es

/-- Pairwise-distinct strings, executable form. -/
def keysDistinct : List String → Bool
  | [] => true
  | k :: ks => !(ks.contains k) && keysDistinct ks

mutual

/-- Every object node of the document has pairwise-distinct keys — true of
every document produced by `json.loads`. -/
def wfJson : JVal → Bool
  | .null => true
  | .boolV _ => true
  | .numV _ => true
  | .strV _ => true
  | .arr xs => wfList xs
  | .obj es => keysDistinct (es.map Prod.fst) && wfEntries es

def wfList : List JVal → Bool
  | [] => true
  | x :: xs => wfJson x && wfList xs

def wfEntries : List (String × JVal) → Bool
  | [] => true
  | (_, v) :: es => wfJson v && wfEntries es

end

mutual

/-- Equality of JSON documents up to the ordering of object keys, at any
nesting depth: leaves must agree, arrays must agree pointwise, and objects
must have the same number of entries with each entry of the left matched
by key in the right against an equivalent value. -/
def jeq : JVal → JVal → Bool
  | .null, .null => true
  | .boolV a, .boolV b => a == b
  | .numV a, .numV b => a == b
  | .strV a, .strV b => a == b
  | .arr xs, .arr ys => jeqList xs ys
  | .obj xs, .obj ys => xs.length == ys.length && jeqEntries xs ys
  | _, _ => false

def jeqList : List JVal → List JVal → Bool
  | [], [] => true
  | x :: xs, y :: ys => jeq x y && jeqList xs ys
  | _, _ => false

def jeqEntries : List (String × JVal) → List (String × JVal) → Bool
  | [], _ => true
  | (k, v) :: es, ys =>
      (match lookupKey k ys with
       | some w => jeq v w
       | none => false) && jeqEntries es ys

end

/-- `" " * n`. -/
def spaces (n : Nat) : String :=
  String.mk (List.replicate n ' ')

/-- JSON string escaping for one character. -/
def escChar (c : Char) : String :=
  if c = '"' then "\\\""
  else if c = '\\' then "\\\\"
  else if c = '\n' then "\\n"
  else if c = '\t' then "\\t"
  else if c = '\r' then "\\r"
  else String.singleton c

/-- A JSON string literal. -/
def jsonQuote (s : String) : String :=
  "\"" ++ String.join (s.data.map escChar) ++ "\""

/-- Layout of a JSON array at indent `d` from its already-rendered
elements, as `json.dumps(·, indent=2)` lays it out. -/
def renderArr (d : Nat) (rendered : List String) : String :=
  match rendered with
  | [] => "[]"
  | _ => "[\n" ++
      String.intercalate ",\n" (rendered.map (fun r => spaces (d + 2) ++ r)) ++
      "\n" ++ spaces d ++ "]"

/-- Layout of a JSON object at indent `d` from its already-rendered
`(key, value)` pairs. -/
def renderObj (d : Nat) (pairs : List (String × String)) : String :=
  match pairs with
  | [] => "\x7b\x7d"
  | _ => "\x7b\n" ++
      String.intercalate ",\n"
        (pairs.map (fun p => spaces (d + 2) ++ jsonQuote p.1 ++ ": " ++ p.2)) ++
      "\n" ++ spaces d ++ "\x7d"

/-- The order in which `sort_keys=True` emits an object's rendered
entries: non-decreasing keys. -/
def keyLE (p q : String × String) : Prop := p.1 ≤ q.1

/-- Strictly increasing keys. -/
def keyLT (p q : String × String) : Prop := p.1 < q.1

instance : DecidableRel keyLE :=
  fun p q => inferInstanceAs (Decidable (p.1 ≤ q.1))

instance : IsTotal (String × String) keyLE :=
  ⟨fun a b => le_total a.1 b.1⟩

instance : IsTrans (String × String) keyLE :=
  ⟨fun _ _ _ h1 h2 => le_trans h1 h2⟩

instance : IsAntisymm (String × String) keyLT :=
  ⟨fun _ _ h1 h2 => absurd (lt_trans h1 h2) (lt_irrefl _)⟩

/-- `sorted(pairs, key=key)`: sort rendered entries by key. -/
def sortPairs (l : List (String × String)) : List (String × String) :=
  List.insertionSort keyLE l

mutual

/-- `json.dumps(v, indent=2, sort_keys=True)` at indent level `d`: leaves
render verbatim, arrays and objects spread over lines, and each object's
entries are emitted in sorted key order. -/
def dumpsAux : Nat → JVal → String
  | _, .null => "null"
  | _, .boolV b => if b then "true" else "false"
  | _, .numV n => toString n
  | _, .strV s => jsonQuote s
  | d, .arr xs => renderArr d (dumpsList (d + 2) xs)
  | d, .obj es => renderObj d (sortPairs (dumpsEntries (d + 2) es))

def dumpsList : Nat → List JVal → List String
  | _, [] => []
  | d, x :: xs => dumpsAux d x :: dumpsList d xs

def dumpsEntries : Nat → List (String × JVal) → List (String × String)
  | _, [] => []
  | d, (k, v) :: es => (k, dumpsAux d v) :: dumpsEntries d es

end

/-- `json.dumps(v, indent=2, sort_keys=True)` (src/utils.py lines 363-364). -/
def dumps (v : JVal) : String :=
  dumpsAux 0 v

/-! ### The line diff

`difflib.unified_diff` is Python standard library, not repository code; it
is modelled by a simple line-by-line diff that agrees with it on the one
property the diff engine's contract uses: its output is empty precisely
when the two line sequences are equal (difflib emits no hunks for equal
inputs and at least one hunk, preceded by the `---`/`+++` header lines,
for unequal ones).  `diffLines_nil_iff` below records that the model has
exactly this property. -/

def diffLines : List String → List String → List String
  | [], [] => []
  | [], y :: ys => ("+" ++ y) :: diffLines [] ys
  | x :: xs, [] => ("-" ++ x) :: diffLines xs []
  | x :: xs, y :: ys =>
      if x = y then diffLines xs ys
      else ("-" ++ x) :: ("+" ++ y) :: diffLines xs ys

def unified_diff (fromfile tofile : String) (a b : List String) : List String :=
  match diffLines a b with
  | [] => []
  | body => ("--- " ++ fromfile) :: ("+++ " ++ tofile) :: body

/-- The modelled diff is empty exactly on equal line sequences. -/
theorem diffLines_nil_iff : ∀ a b : List String, diffLines a b = [] ↔ a = b := by
  intro a
  induction a with
  | nil =>
      intro b
      cases b <;> simp [diffLines]
  | cons x xs ih =>
      intro b
      cases b with
      | nil => simp [diffLines]
      | cons y ys =>
          by_cases hxy : x = y
          · simp [diffLines, hxy, ih ys]
          · simp [diffLines, hxy]

/-- `str.splitlines()` (terminators dropped) for `'\n'`-separated text —
the only terminator `dumpsAux` emits. -/
def splitLinesDrop : List Char → List (List Char)
  | [] => []
  | c :: rest =>
    if c = '\n' then [] :: splitLinesDrop rest
    else
      match splitLinesDrop rest with
      | [] => [[c]]
      | l :: ls => (c :: l) :: ls

def pySplitLines (s : String) : List String :=
  (splitLinesDrop s.data).map String.mk

/-- `generate_json_diff` on two parsed documents (src/utils.py lines
352-387): re-serialize both with sorted keys and indent 2, split into
lines, line-diff, join with newlines, and return the fixed message when
the joined diff text is empty. -/
def generate_json_diff (fromfile tofile : String) (d1 d2 : JVal) : String :=
  let lines1 := pySplitLines (dumps d1)
  let lines2 := pySplitLines (dumps d2)
  let diffOutput := String.intercalate "\n" (unified_diff fromfile tofile lines1 lines2)
  if diffOutput.isEmpty then "No differences found between the two audit runs."
  else diffOutput

/-! ### Key-reordering stability of the sorted serialization -/

theorem dumpsEntries_eq_map (d : Nat) :
    ∀ es, dumpsEntries d es = es.map (fun p => (p.1, dumpsAux d p.2)) := by
  intro es
  induction es with
  | nil => rfl
  | cons p es ih =>
      obtain ⟨k, v⟩ := p
      simp [dumpsEntries, ih]

theorem lookupKey_mem {k : String} {w : JVal} :
    ∀ {es : List (String × JVal)}, lookupKey k es = some w → (k, w) ∈ es := by
  intro es
  induction es with
  | nil => intro h; simp [lookupKey] at h
  | cons p es ih =>
      obtain ⟨k', v⟩ := p
      intro h
      rw [lookupKey] at h
      by_cases hk : k' = k
      · rw [if_pos hk] at h
        injection h with h
        rw [← hk, ← h]
        exact List.mem_cons_self _ _
      · rw [if_neg hk] at h
        exact List.mem_cons_of_mem _ (ih h)

theorem jeqEntries_forall :
    ∀ {xs ys : List (String × JVal)}, jeqEntries xs ys = true →
      ∀ {k : String} {v : JVal}, (k, v) ∈ xs →
        ∃ w, lookupKey k ys = some w ∧ jeq v w = true := by
  intro xs
  induction xs with
  | nil => intro ys _ k v hm; simp at hm
  | cons p xs ih =>
      obtain ⟨k0, v0⟩ := p
      intro ys h k v hm
      rw [jeqEntries, Bool.and_eq_true] at h
      obtain ⟨h1, h2⟩ := h
      rcases List.mem_cons.mp hm with heq | hmem
      · obtain ⟨hk, hv⟩ := Prod.mk.injEq .. ▸ heq
        subst hk; subst hv
        cases hl : lookupKey k ys with
        | none => rw [hl] at h1; simp at h1
        | some w =>
            rw [hl] at h1
            exact ⟨w, rfl, h1⟩
      · exact ih h2 hmem

theorem wfEntries_forall :
    ∀ {es : List (String × JVal)}, wfEntries es = true →
      ∀ {k : String} {v : JVal}, (k, v) ∈ es → wfJson v = true := by
  intro es
  induction es with
  | nil => intro _ k v hm; simp at hm
  | cons p es ih =>
      obtain ⟨k0, v0⟩ := p
      intro h k v hm
      rw [wfEntries, Bool.and_eq_true] at h
      rcases List.mem_cons.mp hm with heq | hmem
      · obtain ⟨_, hv⟩ := Prod.mk.injEq .. ▸ heq
        subst hv
        exact h.1
      · exact ih h.2 hmem

theorem keysDistinct_iff : ∀ {ks : List String}, keysDistinct ks = true ↔ ks.Nodup := by
  intro ks
  induction ks with
  | nil => simp [keysDistinct]
  | cons k ks ih => simp [keysDistinct, ih, List.nodup_cons]

/-- A key-sorted list of rendered entries with pairwise-distinct keys is
sorted by the strict key order. -/
theorem sorted_keyLT_of_nodup {l : List (String × String)}
    (hs : List.Sorted keyLE l) (hn : (l.map Prod.fst).Nodup) :
    List.Sorted keyLT l := by
  have hne : List.Pairwise (fun p q : String × String => p.1 ≠ q.1) l :=
    (List.pairwise_map).mp hn
  exact (hs.and hne).imp (fun h => lt_of_le_of_ne h.1 h.2)

/-- An entry list that is contained in another, has distinct keys, and has
the same length, is a permutation of it. -/
theorem perm_of_subset_nodup_length {A B : List (String × String)}
    (hsub : A ⊆ B) (hn : (A.map Prod.fst).Nodup) (hlen : A.length = B.length) :
    A.Perm B := by
  have hnd : A.Nodup := List.Nodup.of_map Prod.fst hn
  exact (List.subperm_of_subset hnd hsub).perm_of_length_le (le_of_eq hlen.symm)

/-- Sorting by key maps permuted entry lists with distinct keys to the
same list: the serialization order is independent of insertion order. -/
theorem sortPairs_eq_of_perm {A B : List (String × String)} (hp : A.Perm B)
    (hn : (A.map Prod.fst).Nodup) : sortPairs A = sortPairs B := by
  have hpa : (sortPairs A).Perm A := List.perm_insertionSort keyLE A
  have hpb : (sortPairs B).Perm B := List.perm_insertionSort keyLE B
  have hperm : (sortPairs A).Perm (sortPairs B) := hpa.trans (hp.trans hpb.symm)
  have hna : ((sortPairs A).map Prod.fst).Nodup :=
    ((hpa.map Prod.fst).nodup_iff).mpr hn
  have hnB : (B.map Prod.fst).Nodup := ((hp.map Prod.fst).nodup_iff).mp hn
  have hnb : ((sortPairs B).map Prod.fst).Nodup :=
    ((hpb.map Prod.fst).nodup_iff).mpr hnB
  exact List.eq_of_perm_of_sorted hperm
    (sorted_keyLT_of_nodup (List.sorted_insertionSort keyLE A) hna)
    (sorted_keyLT_of_nodup (List.sorted_insertionSort keyLE B) hnb)

/-- Core stability result, by strong induction on the size of the left
document: well-formed documents equal up to key ordering serialize to the
same string at every indent level. -/
theorem jeq_dumps_bound :
    ∀ n : Nat, ∀ x : JVal, sizeOf x ≤ n → ∀ y : JVal,
      wfJson x = true → wfJson y = true → jeq x y = true →
      ∀ d : Nat, dumpsAux d x = dumpsAux d y := by
  intro n
  induction n with
  | zero =>
      intro x hx
      exfalso
      cases x <;> simp at hx
  | succ n ih =>
      intro x hx y hwx hwy hj d
      cases x with
      | null =>
          cases y <;> try (exfalso; revert hj; simp [jeq]; done)
          rfl
      | boolV a =>
          cases y <;> try (exfalso; revert hj; simp [jeq]; done)
          rename_i b
          have hab : a = b := by simpa [jeq] using hj
          rw [hab]
      | numV a =>
          cases y <;> try (exfalso; revert hj; simp [jeq]; done)
          rename_i b
          have hab : a = b := by simpa [jeq] using hj
          rw [hab]
      | strV a =>
          cases y <;> try (exfalso; revert hj; simp [jeq]; done)
          rename_i b
          have hab : a = b := by simpa [jeq] using hj
          rw [hab]
      | arr xs =>
          cases y <;> try (exfalso; revert hj; simp [jeq]; done)
          rename_i ys
          have hsx : sizeOf xs ≤ n := by
            have h1 : sizeOf (JVal.arr xs) = 1 + sizeOf xs := by simp
            omega
          have hjl : jeqList xs ys = true := by simpa [jeq] using hj
          have hwxl : wfList xs = true := by simpa [wfJson] using hwx
          have hwyl : wfList ys = true := by simpa [wfJson] using hwy
          have hlst : ∀ (as : List JVal), sizeOf as ≤ n → ∀ bs,
              wfList as = true → wfList bs = true → jeqList as bs = true →
              ∀ d', dumpsList d' as = dumpsList d' bs := by
            intro as
            induction as with
            | nil =>
                intro _ bs _ _ hj' d'
                cases bs with
                | nil => rfl
                | cons b bs => simp [jeqList] at hj'
            | cons a as iha =>
                intro hsz bs hwa hwb hj' d'
                cases bs with
                | nil => simp [jeqList] at hj'
                | cons b bs =>
                    rw [jeqList, Bool.and_eq_true] at hj'
                    rw [wfList, Bool.and_eq_true] at hwa hwb
                    have hca : sizeOf (a :: as) = 1 + sizeOf a + sizeOf as := by simp
                    have hsa : sizeOf a ≤ n := by omega
                    have hsas : sizeOf as ≤ n := by omega
                    rw [dumpsList, dumpsList,
                      ih a hsa b hwa.1 hwb.1 hj'.1 d',
                      iha hsas bs hwa.2 hwb.2 hj'.2 d']
          simp only [dumpsAux]
          rw [hlst xs hsx ys hwxl hwyl hjl (d + 2)]
      | obj xs =>
          cases y <;> try (exfalso; revert hj; simp [jeq]; done)
          rename_i ys
          have hj' : xs.length = ys.length ∧ jeqEntries xs ys = true := by
            simpa [jeq] using hj
          have hsx : sizeOf xs ≤ n := by
            have h1 : sizeOf (JVal.obj xs) = 1 + sizeOf xs := by simp
            omega
          have hkx : keysDistinct (xs.map Prod.fst) = true ∧ wfEntries xs = true := by
            simpa [wfJson] using hwx
          have hky : keysDistinct (ys.map Prod.fst) = true ∧ wfEntries ys = true := by
            simpa [wfJson] using hwy
          have hsub : dumpsEntries (d + 2) xs ⊆ dumpsEntries (d + 2) ys := by
            intro p hp
            rw [dumpsEntries_eq_map] at hp
            obtain ⟨⟨k, v⟩, hmem, rfl⟩ := List.mem_map.mp hp
            obtain ⟨w, hlw, hjvw⟩ := jeqEntries_forall hj'.2 hmem
            have hwv : wfJson v = true := wfEntries_forall hkx.2 hmem
            have hmw : (k, w) ∈ ys := lookupKey_mem hlw
            have hww : wfJson w = true := wfEntries_forall hky.2 hmw
            have hsv : sizeOf v ≤ n := by
              have h2 : sizeOf (k, v) < sizeOf xs := List.sizeOf_lt_of_mem hmem
              have h3 : sizeOf (k, v) = 1 + sizeOf k + sizeOf v := by simp
              omega
            have hdv : dumpsAux (d + 2) v = dumpsAux (d + 2) w :=
              ih v hsv w hwv hww hjvw (d + 2)
            rw [dumpsEntries_eq_map]
            exact List.mem_map.mpr ⟨(k, w), hmw, by simp [hdv]⟩
          have hnA : ((dumpsEntries (d + 2) xs).map Prod.fst).Nodup := by
            rw [dumpsEntries_eq_map, List.map_map]
            exact keysDistinct_iff.mp hkx.1
          have hlen : (dumpsEntries (d + 2) xs).length = (dumpsEntries (d + 2) ys).length := by
            rw [dumpsEntries_eq_map, dumpsEntries_eq_map]
            simp [hj'.1]
          have hperm := perm_of_subset_nodup_length hsub hnA hlen
          have hsort : sortPairs (dumpsEntries (d + 2) xs)
              = sortPairs (dumpsEntries (d + 2) ys) :=
            sortPairs_eq_of_perm hperm hnA
          simp only [dumpsAux]
          rw [hsort]

/-- Well-formed documents equal up to key ordering have identical sorted
serializations. -/
theorem jeq_dumps {x y : JVal} (hwx : wfJson x = true) (hwy : wfJson y = true)
    (hj : jeq x y = true) : dumps x = dumps y :=
  jeq_dumps_bound (sizeOf x) x le_rfl y hwx hwy hj 0

/-- **C6.** Two JSON documents that are equal up to the ordering of object
keys at any nesting depth (with the distinct-key invariant `json.loads`
guarantees) produce the "No differences found" message, for any
`fromfile`/`tofile` labels: both are re-serialized with sorted keys and
stable indentation, so the line diff is empty. -/
theorem diff_key_reorder_c6 (fromfile tofile : String) (d1 d2 : JVal)
    (hw1 : wfJson d1 = true) (hw2 : wfJson d2 = true) (hj : jeq d1 d2 = true) :
    generate_json_diff fromfile tofile d1 d2
      = "No differences found between the two audit runs." := by
  have hd : dumps d1 = dumps d2 := jeq_dumps hw1 hw2 hj
  rw [generate_json_diff, hd]
  have hself : diffLines (pySplitLines (dumps d2)) (pySplitLines (dumps d2)) = [] :=
    (diffLines_nil_iff _ _).mpr rfl
  rw [unified_diff, hself]
  rfl

/-- Closed instance of `diff_key_reorder_c6`:
`diff({"a": 1, "b": 2}, {"b": 2, "a": 1})` reports no differences. -/
theorem diff_key_reorder_c6_witness :
    generate_json_diff "previous_run" "latest_run"
        (JVal.obj [("a", JVal.numV 1), ("b", JVal.numV 2)])
        (JVal.obj [("b", JVal.numV 2), ("a", JVal.numV 1)])
      = "No differences found between the two audit runs." :=
  diff_key_reorder_c6 "previous_run" "latest_run"
    (JVal.obj [("a", JVal.numV 1), ("b", JVal.numV 2)])
    (JVal.obj [("b", JVal.numV 2), ("a", JVal.numV 1)])
    (by decide) (by decide) (by decide)

end SecopsInventory
